import Mathlib

/-!
Verification of the sequent event-sourcing core against its specification.

The definitions below are a shallow embedding of the TypeScript sources:
pure functions become Lean functions, stateful code becomes explicit state
passing, JS numbers used as integral quantities become Int/Nat and the one
fractional constant (0.7) is handled over the rationals.  Machine hashing
(SHA-1, as used by EventType.topicName and ReadModel.start) is implemented
bit-faithfully over byte lists with arithmetic modulo 2^32.
-/

namespace Sequent

/-! ### Bytes, 32-bit words, SHA-1 (crypto.subtle.digest "SHA-1") -/

/-- 2^32, the word modulus of SHA-1. -/
def w32 : Nat := 4294967296

/-- Left-rotate a 32-bit word (value taken mod 2^32) by n bits. -/
def rotl (n x : Nat) : Nat :=
  ((x <<< n) ||| (x >>> (32 - n))) % w32

/-- Big-endian bytes (most significant first) of a value, n bytes wide. -/
def natToBytesBE (n val : Nat) : List Nat :=
  (List.range n).map (fun i => (val >>> (8 * (n - 1 - i))) % 256)

/-- A big-endian 32-bit word from a list of bytes. -/
def bytesToWordBE (bs : List Nat) : Nat :=
  bs.foldl (fun acc b => acc * 256 + b) 0

/-- SHA-1 padding: append 0x80, zeros to 56 mod 64, and the 64-bit
big-endian bit length. -/
def sha1Pad (msg : List Nat) : List Nat :=
  let len := msg.length
  let zeros := (119 - len % 64) % 64
  msg ++ [128] ++ List.replicate zeros 0 ++ natToBytesBE 8 (len * 8)

/-- Split a byte list into 64-byte chunks. -/
def chunksOf64 (l : List Nat) : List (List Nat) :=
  if l.isEmpty then []
  else l.take 64 :: chunksOf64 (l.drop 64)
termination_by l.length
decreasing_by
  simp only [List.length_drop]
  cases l with
  | nil => simp [List.isEmpty] at *
  | cons a t => simp; omega

/-- The sixteen big-endian words of one 64-byte chunk. -/
def chunkWords (c : List Nat) : List Nat :=
  (List.range 16).map (fun i => bytesToWordBE ((c.drop (4 * i)).take 4))

/-- Extend sixteen words to the eighty words of the SHA-1 message schedule. -/
def extendWords (ws : List Nat) : List Nat :=
  (List.range 64).foldl
    (fun acc _ =>
      let n := acc.length
      acc ++ [rotl 1 ((acc.getD (n - 3) 0) ^^^ (acc.getD (n - 8) 0) ^^^
                      (acc.getD (n - 14) 0) ^^^ (acc.getD (n - 16) 0))])
    ws

/-- SHA-1 working state: the five 32-bit registers. -/
structure Sha1State where
  a : Nat
  b : Nat
  c : Nat
  d : Nat
  e : Nat
deriving Repr, DecidableEq

/-- The SHA-1 initial state. -/
def sha1Init : Sha1State :=
  ⟨1732584193, 4023233417, 2562383102, 271733878, 3285377520⟩

/-- The round function and round constant for round i. -/
def sha1FK (i : Nat) (b c d : Nat) : Nat × Nat :=
  if i < 20 then ((b &&& c) ||| ((w32 - 1 - b % w32) &&& d) % w32, 1518500249)
  else if i < 40 then (b ^^^ c ^^^ d, 1859775393)
  else if i < 60 then ((b &&& c) ||| (b &&& d) ||| (c &&& d), 2400959708)
  else (b ^^^ c ^^^ d, 3395469782)

/-- One SHA-1 round over the message-schedule word w. -/
def sha1Round (i : Nat) (st : Sha1State) (w : Nat) : Sha1State :=
  let fk := sha1FK i st.b st.c st.d
  let temp := (rotl 5 st.a + fk.1 + st.e + fk.2 + w) % w32
  ⟨temp, st.a, rotl 30 st.b, st.c, st.d⟩

/-- Compress one 64-byte chunk into the running state. -/
def sha1Compress (st : Sha1State) (chunk : List Nat) : Sha1State :=
  let ws := extendWords (chunkWords chunk)
  let r := (ws.enum).foldl (fun s p => sha1Round p.1 s p.2) st
  ⟨(st.a + r.a) % w32, (st.b + r.b) % w32, (st.c + r.c) % w32,
   (st.d + r.d) % w32, (st.e + r.e) % w32⟩

/-- SHA-1 digest of a byte list, as the twenty digest bytes. -/
def sha1 (msg : List Nat) : List Nat :=
  let fin := (chunksOf64 (sha1Pad msg)).foldl sha1Compress sha1Init
  natToBytesBE 4 fin.a ++ natToBytesBE 4 fin.b ++ natToBytesBE 4 fin.c ++
  natToBytesBE 4 fin.d ++ natToBytesBE 4 fin.e

/-! ### Lowercase hex rendering (b.toString(16).padStart(2, "0")) -/

/-- One lowercase hex digit: 0-9 then a-f. -/
def hexDigit (n : Nat) : Char :=
  if n < 10 then Char.ofNat (48 + n) else Char.ofNat (87 + n)

/-- Two lowercase hex characters of one byte, zero-padded. -/
def byteHexChars (b : Nat) : List Char :=
  [hexDigit (b / 16), hexDigit (b % 16)]

/-- Lowercase hex string of a byte list (the Array.from(...).join("") step). -/
def toHexLower (bs : List Nat) : String :=
  ⟨bs.flatMap byteHexChars⟩

/-- The sixteen lowercase hex characters. -/
def lowerHexChars : List Char :=
  "0123456789abcdef".data

/-! ### UTF-8 encoding (TextEncoder().encode) -/

/-- UTF-8 bytes of one character. -/
def utf8EncodeCharBytes (ch : Char) : List Nat :=
  let n := ch.toNat
  if n < 128 then [n]
  else if n < 2048 then
    [192 ||| (n >>> 6), 128 ||| (n &&& 63)]
  else if n < 65536 then
    [224 ||| (n >>> 12), 128 ||| ((n >>> 6) &&& 63), 128 ||| (n &&& 63)]
  else
    [240 ||| (n >>> 18), 128 ||| ((n >>> 12) &&& 63),
     128 ||| ((n >>> 6) &&& 63), 128 ||| (n &&& 63)]

/-- UTF-8 bytes of a string. -/
def utf8Bytes (s : String) : List Nat :=
  s.data.flatMap utf8EncodeCharBytes

/-! ### TypeSpec (packages/core/TypeSpec.ts, the variant with Optional/Union/Bytes) -/

/-- Schema descriptors. Record fields are an ordered association list, as
Object.entries order is insertion order for string keys. -/
inductive TypeSpec where
  | string
  | bytes
  | number
  | boolean
  | array (spec : TypeSpec)
  | optional (spec : TypeSpec)
  | union (specs : List TypeSpec)
  | record (fields : List (String × TypeSpec))
deriving Repr

/-- JS runtime values as seen by TypeSpec.assert. -/
inductive Value where
  | vUndefined
  | vNull
  | vBool (b : Bool)
  | vNum (q : Rat)
  | vStr (s : String)
  | vBytes (bs : List Nat)
  | vArr (elems : List Value)
  | vObj (fields : List (String × Value))
deriving Repr

/-- TypeSpec.AssertionError: a message and the list of causes
(empty list when the error has no cause). -/
inductive AErr where
  | mk (message : String) (causes : List AErr)
deriving Repr

def AErr.message : AErr → String
  | .mk m _ => m

def AErr.causes : AErr → List AErr
  | .mk _ c => c

/-- The indent helper of RecordSpec.toString. -/
def indentTwo (s : String) : String :=
  String.intercalate "\n" ((s.splitOn "\n").map (fun l => "  " ++ l))

mutual

/-- TypeSpec.toString, the canonical schema string used for content
addressing. -/
def TypeSpec.str : TypeSpec → String
  | .string => "String"
  | .bytes => "Bytes"
  | .number => "Number"
  | .boolean => "Boolean"
  | .array s => TypeSpec.str s ++ "[]"
  | .optional s => TypeSpec.str s ++ "?"
  | .union specs => String.intercalate " | " (TypeSpec.strList specs)
  | .record fields =>
      "\x7b\n" ++ indentTwo (String.intercalate "\n" (TypeSpec.strFields fields)) ++ "\n\x7d"

def TypeSpec.strList : List TypeSpec → List String
  | [] => []
  | s :: rest => TypeSpec.str s :: TypeSpec.strList rest

def TypeSpec.strFields : List (String × TypeSpec) → List String
  | [] => []
  | (n, s) :: rest => (n ++ ": " ++ TypeSpec.str s) :: TypeSpec.strFields rest

end

/-- TypeSpec.isOptional. -/
def TypeSpec.isOptional : TypeSpec → Bool
  | .optional _ => true
  | _ => false

/-- TypeSpec.isRecord. -/
def TypeSpec.isRecord : TypeSpec → Bool
  | .record _ => true
  | _ => false

/-- The declared optional keys of a record spec (the optionalKeys set of
RecordSpec.assert), in declaration order. -/
def optionalKeys (fields : List (String × TypeSpec)) : List String :=
  (fields.filter (fun p => p.2.isOptional)).map Prod.fst

/-- The declared non-optional keys of a record spec (the requiredKeys set of
RecordSpec.assert after the optional keys are moved out), in declaration
order. -/
def requiredKeys (fields : List (String × TypeSpec)) : List String :=
  (fields.filter (fun p => !p.2.isOptional)).map Prod.fst

mutual

/-- TypeSpec.assert: Except-valued runtime validation, mirroring each
spec variant's assert method. -/
def TypeSpec.assert : TypeSpec → Value → Except AErr Unit
  | .string, v => match v with
    | .vStr _ => .ok ()
    | _ => .error (AErr.mk "is not a string" [])
  | .number, v => match v with
    | .vNum _ => .ok ()
    | _ => .error (AErr.mk "is not a number" [])
  | .boolean, v => match v with
    | .vBool _ => .ok ()
    | _ => .error (AErr.mk "is not a boolean" [])
  | .bytes, v => match v with
    | .vBytes _ => .ok ()
    | _ => .error (AErr.mk "is not a Uint8Array" [])
  | .array s, v => match v with
    | .vArr elems =>
      (match TypeSpec.assertElems s elems 0 with
        | [] => .ok ()
        | [e] => .error e
        | es => .error (AErr.mk "has multiple invalid elements" es))
    | _ => .error (AErr.mk "is not an array" [])
  | .optional s, v => match v with
    | .vNull => .ok ()
    | .vUndefined => .ok ()
    | _ => TypeSpec.assert s v
  | .union specs, v => TypeSpec.assertUnionGo specs v []
  | .record fields, v => match v with
    | .vObj objFields =>
      (match TypeSpec.recordErrors fields objFields with
        | [] => .ok ()
        | [e] => .error e
        | es => .error (AErr.mk "has multiple issues" es))
    | .vBytes _ => .error (AErr.mk "has a complex prototype chain" [])
    | .vArr _ => .error (AErr.mk "has a complex prototype chain" [])
    | _ => .error (AErr.mk "is not an object" [])
termination_by s v => (sizeOf s, 0)

/-- The element loop of ArraySpec.assert, collecting per-index errors. -/
def TypeSpec.assertElems (s : TypeSpec) : List Value → Nat → List AErr
  | [], _ => []
  | v :: rest, i =>
    match TypeSpec.assert s v with
    | .ok _ => TypeSpec.assertElems s rest (i + 1)
    | .error e =>
        AErr.mk ("has invalid element at index " ++ toString i) [e] ::
          TypeSpec.assertElems s rest (i + 1)
termination_by elems i => (sizeOf s, elems.length + 1)

/-- The variant loop of UnionSpec.assert: first success wins, otherwise
all variant errors are collected in order. -/
def TypeSpec.assertUnionGo : List TypeSpec → Value → List AErr → Except AErr Unit
  | [], _, acc => .error (AErr.mk "is neither variant" acc)
  | s :: rest, v, acc =>
    match TypeSpec.assert s v with
    | .ok _ => .ok ()
    | .error e => TypeSpec.assertUnionGo rest v (acc ++ [e])
termination_by specs v acc => (sizeOf specs, 0)

/-- Assert the declared spec of key k against a value (the spec[key].assert
call; the key is always declared when this is reached). -/
def TypeSpec.assertLookup : List (String × TypeSpec) → String → Value → Except AErr Unit
  | [], _, _ => .ok ()
  | (n, s) :: rest, k, v =>
    if n = k then TypeSpec.assert s v else TypeSpec.assertLookup rest k v
termination_by fields k v => (sizeOf fields, 0)

/-- The fieldAssertions and missing-required-key errors of RecordSpec.assert,
in the order the code finds them: one error per present key (object key
order), then one error per still-missing required key (declaration order). -/
def TypeSpec.recordErrors (fields : List (String × TypeSpec))
    (objFields : List (String × Value)) : List AErr :=
  let res := TypeSpec.recordLoop fields (optionalKeys fields) objFields
    (requiredKeys fields) []
  res.2 ++ res.1.map (fun k => AErr.mk ("is missing required \"" ++ k ++ "\" field") [])
termination_by (sizeOf fields, sizeOf objFields + 2)

/-- The per-present-key loop of RecordSpec.assert. Walks the object keys in
order, tracking the not-yet-seen required keys and the accumulated errors. -/
def TypeSpec.recordLoop (fields : List (String × TypeSpec)) (optKeys : List String) :
    List (String × Value) → List String → List AErr → List String × List AErr
  | [], req, errs => (req, errs)
  | (k, v) :: rest, req, errs =>
    if optKeys.contains k then
      match TypeSpec.assertLookup fields k v with
      | .ok _ => TypeSpec.recordLoop fields optKeys rest req errs
      | .error e =>
          TypeSpec.recordLoop fields optKeys rest req
            (errs ++ [AErr.mk ("has invalid \"" ++ k ++ "\" field") [e]])
    else if req.contains k then
      match TypeSpec.assertLookup fields k v with
      | .ok _ => TypeSpec.recordLoop fields optKeys rest (req.erase k) errs
      | .error e =>
          TypeSpec.recordLoop fields optKeys rest (req.erase k)
            (errs ++ [AErr.mk ("has invalid \"" ++ k ++ "\" field") [e]])
    else
      TypeSpec.recordLoop fields optKeys rest req
        (errs ++ [AErr.mk ("has invalid \"" ++ k ++ "\" field")
                    [AErr.mk "is not a defined key" []]])
termination_by objFields req errs => (sizeOf fields, sizeOf objFields + 1)

end

/-! ### EventType and topic naming (part_006; aggregate branch from spec §3) -/

/-- An EventType value: name, schema, nonce, and the optional enclosing
aggregate's name. The aggregate field models the aggregate-aware EventType
(EventType.withinAggregate, called from Aggregate.ts) whose source is not
under src/. -/
structure EventTypeM where
  name : String
  spec : TypeSpec
  nonce : Int
  aggregate : Option String

/-- Modelled from the spec: EventType.toString. For an aggregate-less type
this is part_006 line 53, name + " " + spec; the aggregate-aware source is
missing from src/ and spec §3 gives string() = "name (agg)" + " " + schema. -/
def EventTypeM.toStr (et : EventTypeM) : String :=
  match et.aggregate with
  | none => et.name ++ " " ++ et.spec.str
  | some a => et.name ++ " (" ++ a ++ ")" ++ " " ++ et.spec.str

/-- The SHA-1 hex digest of toString() + nonce.toString()
(part_006 lines 57-65). -/
def EventTypeM.hashDigest (et : EventTypeM) : String :=
  toHexLower (sha1 (utf8Bytes (et.toStr ++ toString et.nonce)))

/-- Modelled from the spec: EventType.topicName. The aggregate-less branch is
exactly part_006 line 67, name + "-" + digest; the aggregate-aware source is
missing from src/ and spec §3 gives the filter-nonempty join of
[aggregate name, name, digest]. -/
def EventTypeM.topicName (et : EventTypeM) : String :=
  match et.aggregate with
  | none => et.name ++ "-" ++ et.hashDigest
  | some a =>
      String.intercalate "-" (([a, et.name, et.hashDigest].filter (fun s => s ≠ "")))

/-- The claim C1 formula for the topic name, written from the spec's words
for the refinement comparison: the non-empty tokens among aggregate name,
event-type name and digest, joined by "-". -/
def topicNameClaimForm (et : EventTypeM) : String :=
  String.intercalate "-"
    (((match et.aggregate with | none => [] | some a => [a]) ++
        [et.name, et.hashDigest]).filter (fun s => s ≠ ""))

/-! ### Casing (packages/core/Casing.ts, the variant with suffixSeparator) -/

/-- A casing policy: how to assemble lowercased words, and the separator the
policy uses before a machine suffix. -/
structure CasingM where
  assemble : List String → String
  suffixSeparator : String

/-- A character of the split class [-_\s]. -/
def isSepChar (c : Char) : Bool :=
  c = '-' ∨ c = '_' ∨ c.isWhitespace

/-- The zero-width split condition of Casing.convert between a previous
character p and a current character c with lookahead n: a lower-to-upper-or-
digit boundary, or an uppercase letter followed by a lowercase one. -/
def camelBoundary (p c : Char) (n : Option Char) : Bool :=
  (p.isLower && (c.isUpper || c.isDigit)) ||
  (c.isUpper && (match n with | some x => x.isLower | none => false))

/-- The word-splitting walk of Casing.convert. Separator characters always
split (runs of them only differ from the regex by extra empty segments, which
convert filters out). -/
def splitWordsGo (prev : Option Char) (cur : List Char) : List Char → List String
  | [] => [String.mk cur.reverse]
  | c :: rest =>
    if isSepChar c then
      String.mk cur.reverse :: splitWordsGo (some c) [] rest
    else if (match prev with | some p => camelBoundary p c rest.head? | none => false) then
      String.mk cur.reverse :: splitWordsGo (some c) [c] rest
    else
      splitWordsGo (some c) (c :: cur) rest

/-- The segments produced by the split regex of Casing.convert (up to empty
segments, which convert filters). -/
def splitWords (s : String) : List String :=
  splitWordsGo none [] s.data

/-- String.prototype.trim: strip whitespace from both ends. -/
def strTrim (s : String) : String :=
  ⟨((s.data.dropWhile Char.isWhitespace).reverse.dropWhile Char.isWhitespace).reverse⟩

/-- ASCII lowercase of a string (toLowerCase on the identifiers in use). -/
def strToLower (s : String) : String :=
  ⟨s.data.map Char.toLower⟩

/-- ASCII uppercase of a string. -/
def strToUpper (s : String) : String :=
  ⟨s.data.map Char.toUpper⟩

/-- w[0].toUpperCase() + w.slice(1); only applied to non-empty words. -/
def capitalizeWord (s : String) : String :=
  match s.data with
  | [] => ""
  | c :: cs => ⟨c.toUpper :: cs⟩

/-- Casing.convert: split, trim and lowercase each segment, drop empties,
then assemble per the target casing. -/
def CasingM.convert (cm : CasingM) (input : String) : String :=
  cm.assemble (((splitWords input).map (fun s => strToLower (strTrim s))).filter (fun s => s ≠ ""))

/-- Casing.snake_case. -/
def snakeCase : CasingM :=
  ⟨fun ws => String.intercalate "_" ws, "_"⟩

/-- Casing.camelCase. -/
def camelCaseM : CasingM :=
  ⟨fun ws => String.join (ws.enum.map (fun p => if p.1 = 0 then p.2 else capitalizeWord p.2)), "_"⟩

/-- Casing.SCREAMING_SNAKE_CASE. -/
def screamingSnakeCase : CasingM :=
  ⟨fun ws => String.intercalate "_" (ws.map strToUpper), "_"⟩

/-- Casing.PascalCase. -/
def pascalCase : CasingM :=
  ⟨fun ws => String.join (ws.map capitalizeWord), "_"⟩

/-- Casing.TitleCase. -/
def titleCase : CasingM :=
  ⟨fun ws => String.intercalate " " (ws.map capitalizeWord), " "⟩

/-- Casing.sentenceCase. -/
def sentenceCase : CasingM :=
  ⟨fun ws => String.intercalate " "
      (ws.enum.map (fun p => if p.1 = 0 then capitalizeWord p.2 else p.2)), " "⟩

/-- Casing.kebabcase. -/
def kebabCase : CasingM :=
  ⟨fun ws => String.intercalate "-" ws, "-"⟩

/-! ### ReadModel namespace derivation (part_009, ReadModel.start) -/

/-- A registered ingestor as it contributes to the namespace hash:
eventType.toString(), the nonce, and the ingestor function's source text. -/
structure RegisteredIngestorM where
  etString : String
  nonce : Int
  ingestorString : String

/-- A registered initializer: the function's source text and its nonce. -/
structure RegisteredInitializerM where
  initString : String
  nonce : Int

/-- A read model: name plus registered ingestors and initializers. -/
structure ReadModelM where
  name : String
  ingestors : List RegisteredIngestorM
  initializers : List RegisteredInitializerM

/-- The hash input of ReadModel.start (part_009 lines 86-96): stringified
initializers then ingestors, each with its nonce, joined by "," (the
no-argument Array.prototype.join). -/
def readModelData (rm : ReadModelM) : String :=
  String.intercalate ","
    (rm.initializers.map (fun i => i.initString ++ toString i.nonce) ++
     rm.ingestors.map (fun i => i.etString ++ toString i.nonce ++ i.ingestorString))

/-- The SHA-1 hex digest of the read model's hash input. -/
def readModelDigest (rm : ReadModelM) : String :=
  toHexLower (sha1 (utf8Bytes (readModelData rm)))

/-- JS s.slice(0, -n): all but the last n characters (clamped at empty). -/
def strDropRight (s : String) (n : Nat) : String :=
  ⟨s.data.take (s.data.length - n)⟩

/-- The namespace computed by ReadModel.start (part_009 lines 105-108):
convert(name + "_HASH"), drop the last three characters, append the digest. -/
def readModelNamespace (rm : ReadModelM) (cm : CasingM) : String :=
  strDropRight (cm.convert (rm.name ++ "_HASH")) 3 ++ readModelDigest rm

/-- The claim C5 formula for the namespace, written from the spec's words
for the refinement comparison: cased name, suffix separator, digest. -/
def readModelNamespaceClaimForm (rm : ReadModelM) (cm : CasingM) : String :=
  cm.convert rm.name ++ cm.suffixSeparator ++ readModelDigest rm

/-! ### Envelope (packages/core/Consumer.ts) -/

/-- An effect on the underlying acker. -/
inductive AckAction where
  | ack (acker : Nat)
  | nackSignal (acker : Nat)
deriving Repr, DecidableEq

/-- An envelope: the delivered event, the optional partition key, the
identity of the substrate acker, and the mutable nacked flag. -/
structure EnvelopeM (E : Type) where
  event : E
  key : Option (List Nat)
  acker : Nat
  nacked : Bool
deriving DecidableEq

/-- A freshly constructed envelope; the constructor initialises nacked to
false. -/
def EnvelopeM.mkFresh (event : E) (key : Option (List Nat)) (acker : Nat) :
    EnvelopeM E :=
  ⟨event, key, acker, false⟩

/-- Envelope.nack: set the nacked flag and signal the acker. -/
def EnvelopeM.nack (env : EnvelopeM E) : EnvelopeM E × AckAction :=
  ({ env with nacked := true }, .nackSignal env.acker)

/-- Envelope's asyncDispose: ack unless nacked. -/
def EnvelopeM.disposeActions (env : EnvelopeM E) : List AckAction :=
  if env.nacked then [] else [.ack env.acker]

/-- Envelope.map: a new envelope over the mapped event, sharing key and
acker. -/
def EnvelopeM.map (env : EnvelopeM E) (f : E → E2) : EnvelopeM E2 :=
  ⟨f env.event, env.key, env.acker, false⟩

/-! ### Events, Dates and the EventConsumer (packages/core/EventConsumer.ts) -/

/-- new Date(ms) as an instant. -/
structure DateM where
  ms : Int
deriving Repr, DecidableEq

/-- new Date(n). -/
def newDate (n : Int) : DateM := ⟨n⟩

/-- Date.prototype.getTime. -/
def DateM.getTime (d : DateM) : Int := d.ms

/-- RawEvent: millisecond timestamp and message. -/
structure RawEventM (M : Type) where
  timestamp : Int
  message : M
deriving DecidableEq

/-- Event: wall-clock Date and message. -/
structure EventM (M : Type) where
  timestamp : DateM
  message : M
deriving DecidableEq

/-- The RawEvent-to-Event mapping of EventConsumer.consume. -/
def eventOfRaw (e : RawEventM M) : EventM M :=
  ⟨newDate e.timestamp, e.message⟩

/-- The envelope returned by EventConsumer.consume (lines 114-117):
envelope.map over eventOfRaw. -/
def consumeMapEnvelope (env : EnvelopeM (RawEventM M)) : EnvelopeM (EventM M) :=
  env.map eventOfRaw

/-- The catch-up latch state of an EventConsumer: the caughtUp flag and how
many times onCatchUp has been invoked. -/
structure ECState where
  caughtUp : Bool
  invocations : Nat
deriving Repr, DecidableEq

/-- The initial latch state. -/
def ecInit : ECState := ⟨false, 0⟩

/-- EventConsumer's private catchUp (lines 75-81): if not caught up, set the
flag and invoke onCatchUp, else do nothing. -/
def ecCatchUp (s : ECState) : ECState :=
  if s.caughtUp then s else ⟨true, s.invocations + 1⟩

/-- The three occurrences that can fire the latch during consume: a
delivery with the event's age (now minus event timestamp), the idle
catch-up-delay timer, and the cancel signal's abort. -/
inductive ECTrigger where
  | deliver (age : Int)
  | idleTimeout
  | abortSignal
deriving Repr, DecidableEq

/-- The latch transition for one occurrence: a delivery latches when its age
is at most catchUpDelayMs (line 106-112); timer expiry and abort latch
unconditionally. -/
def ecStep (catchUpDelayMs : Int) (s : ECState) : ECTrigger → ECState
  | .deliver age => if age ≤ catchUpDelayMs then ecCatchUp s else s
  | .idleTimeout => ecCatchUp s
  | .abortSignal => ecCatchUp s

/-- The latch state after a sequence of occurrences. -/
def ecRun (catchUpDelayMs : Int) (tr : List ECTrigger) : ECState :=
  tr.foldl (ecStep catchUpDelayMs) ecInit

/-- Whether one occurrence fires the latch predicate. -/
def ecFires (catchUpDelayMs : Int) : ECTrigger → Bool
  | .deliver age => age ≤ catchUpDelayMs
  | .idleTimeout => true
  | .abortSignal => true

/-- Partial CatchUpOptions as passed by callers. -/
structure CatchUpOptionsM where
  progressLogFrequencyMs : Option Rat
  catchUpDelayMs : Option Rat

/-- EventConsumer's DEFAULT_CATCH_UP_DELAY (line 11). -/
def DEFAULT_CATCH_UP_DELAY : Rat := 1000

/-- EventConsumer's DEFAULT_PROGRESS_LOG_FREQUENCY (line 12). -/
def DEFAULT_PROGRESS_LOG_FREQUENCY : Rat := 3000

/-! ### Migrator (Migrator variant embedded in Logger.ts, lines 307-427) -/

/-- The produce calls of one iteration of the Migrator replication loop
(lines 393-403): each output of the migration applied to the source message
is produced with the source event's timestamp (through Date and getTime) and
the source envelope's key, in iteration order. -/
def migrateEnvelope (migration : A → List B) (env : EnvelopeM (EventM A)) :
    List (RawEventM B × Option (List Nat)) :=
  (migration env.event.message).foldl
    (fun acc m => acc ++ [(⟨env.event.timestamp.getTime, m⟩, env.key)]) []

/-- The destination topic contents after the loop has consumed a list of raw
source envelopes (each passed through the EventConsumer mapping first). -/
def migratorRunLoop (migration : A → List B) (envs : List (EnvelopeM (RawEventM A))) :
    List (RawEventM B × Option (List Nat)) :=
  envs.foldl (fun acc env => acc ++ migrateEnvelope migration (consumeMapEnvelope env)) []

/-- The once-per-process run state of a Migrator: the memoised running
promise (by identity), a fresh-identity counter, and how many times the
migration work has actually been started. -/
structure MigRunState where
  running : Option Nat
  nextId : Nat
  starts : Nat
deriving Repr, DecidableEq

/-- A Migrator before any run call. -/
def migFresh : MigRunState := ⟨none, 0, 0⟩

/-- Migrator.run (lines 349-353): return the memoised promise if present,
else start the work and memoise the new promise. The check and the
assignment are synchronous, so every call observes either none or the first
promise. -/
def migRun (s : MigRunState) : Nat × MigRunState :=
  match s.running with
  | some p => (p, s)
  | none => (s.nextId, ⟨some s.nextId, s.nextId + 1, s.starts + 1⟩)

/-- The results and final state of n successive run calls. -/
def migRunN : Nat → MigRunState → List Nat × MigRunState
  | 0, s => ([], s)
  | n + 1, s =>
    let r := migRun s
    let rest := migRunN n r.2
    (r.1 :: rest.1, rest.2)

/-! ### MultiConsumerIngestor (part_009, lines 181-294) -/

/-- MultiConsumerIngestor's DEFAULT_TIMEOUT_MS (line 182). -/
def MULTI_DEFAULT_TIMEOUT_MS : Rat := 300

/-- The peek timeout chosen by the constructor (lines 192-196): the 300 ms
default, overridden by catchUpDelayMs * 0.7 when supplied (0.7 taken as the
rational 7/10). -/
def multiIngestorTimeoutMs (catchUpOptions : Option CatchUpOptionsM) : Rat :=
  match catchUpOptions with
  | some o =>
    match o.catchUpDelayMs with
    | some d => d * (7 / 10)
    | none => MULTI_DEFAULT_TIMEOUT_MS
  | none => MULTI_DEFAULT_TIMEOUT_MS

/-- The earliest-timestamp selection loop of MultiConsumerIngestor.next
(lines 204-218), walking the peeked dates with the running earliest date and
index; a later date replaces the current earliest only when strictly
smaller. -/
def selGo : Nat → List (Option Int) → Option (Nat × Int) → Option (Nat × Int)
  | _, [], acc => acc
  | i, d :: rest, acc =>
    match d with
    | none => selGo (i + 1) rest acc
    | some dv =>
      match acc with
      | none => selGo (i + 1) rest (some (i, dv))
      | some (j, e) =>
          if e > dv then selGo (i + 1) rest (some (i, dv))
          else selGo (i + 1) rest (some (j, e))

/-- The ingestor index and timestamp selected from one round of peeks. -/
def selectEarliest (peeked : List (Option Int)) : Option (Nat × Int) :=
  selGo 0 peeked none

/-- MultiConsumerIngestor.next over successive rounds of peek results: if the
round selected an ingestor, take from it; else wait for any stream to
produce (the race of unbounded peeks) and recurse on the next round. -/
def multiNext : List (List (Option Int)) → Option (Nat × Int)
  | [] => none
  | round :: rest =>
    match selectEarliest round with
    | some r => some r
    | none => multiNext rest

/-! ### EventProducer (part_002) -/

/-- A caller-supplied key: string | Uint8Array (null and undefined are the
none case of the Option). -/
inductive CallerKey where
  | str (s : String)
  | bytes (bs : List Nat)
deriving Repr, DecidableEq

/-- JS truthiness of the key argument: null/undefined and the empty string
are falsy; any Uint8Array object is truthy. -/
def callerKeyTruthy : Option CallerKey → Bool
  | none => false
  | some (.str s) => s ≠ ""
  | some (.bytes _) => true

/-- Buffer.from on a caller key: UTF-8 bytes of a string, the bytes of a
Uint8Array. -/
def callerKeyBytes : CallerKey → List Nat
  | .str s => utf8Bytes s
  | .bytes bs => bs

/-- The while-isOptional unwrapping of the id spec
(part_002 lines 34-37). -/
def TypeSpec.unwrapOptional : TypeSpec → TypeSpec
  | .optional s => TypeSpec.unwrapOptional s
  | s => s

/-- First-match association lookup (JS property access on unique keys). -/
def lookupField : List (String × α) → String → Option α
  | [], _ => none
  | (n, x) :: rest, k => if n = k then some x else lookupField rest k

/-- The event's id property, when the event is an object. -/
def getIdValue (event : Value) : Option Value :=
  match event with
  | .vObj fs => lookupField fs "id"
  | _ => none

/-- Truncation of a rational toward zero (the truncate step of ECMAScript
ToUint8). -/
def ratTrunc (q : Rat) : Int :=
  if q.num ≥ 0 then (q.num.toNat / q.den : Nat)
  else -((((-q.num).toNat / q.den : Nat) : Int))

/-- ECMAScript ToUint8 of a finite JS number: truncate toward zero, then
reduce modulo 2^8 into [0, 256). This is the element conversion the
Uint8Array constructor applies to each Float64Array element in
`new Uint8Array(data)` (part_002 line 57). NaN and the infinities, which
ToUint8 sends to 0, are outside the rational value model. -/
def toUint8 (q : Rat) : Nat :=
  ((ratTrunc q).emod 256).toNat

/-- The key derivation installed by the EventProducer constructor
(part_002 lines 33-60): defined only when the schema is a Record with an id
field whose optional-unwrapped spec is Bytes, String or Number; a missing or
null id derives null. For a Number id the code fills a one-element
Float64Array and passes THE ARRAY (not its buffer) to the Uint8Array
constructor, which element-converts: the key is the single byte ToUint8(id),
not the 8-byte float64 image. The value shapes not matching the id spec
cannot reach the keyer in produce, because the schema assertion runs
first. -/
def derivedKeyer (spec : TypeSpec) (event : Value) : Option (List Nat) :=
  match spec with
  | .record fields =>
    match lookupField fields "id" with
    | some idSpec0 =>
      (match TypeSpec.unwrapOptional idSpec0 with
        | .bytes =>
          (match getIdValue event with
            | some (.vBytes bs) => some bs
            | _ => none)
        | .string =>
          (match getIdValue event with
            | some (.vStr s) => some (utf8Bytes s)
            | _ => none)
        | .number =>
          (match getIdValue event with
            | some (.vNum q) => some [toUint8 q]
            | _ => none)
        | _ => none)
    | none => none
  | _ => none

/-- The outcome of EventProducer.produce. -/
inductive ProduceResult where
  | published (raw : RawEventM Value) (key : Option (List Nat))
  | schemaError (e : AErr)
  | keyOverrideError
  | missingKeyError

/-- EventProducer.produce (part_002 lines 71-102): assert the schema; inside
an aggregate reject a truthy caller key; use a truthy caller key verbatim,
else derive from id; inside an aggregate a null key is fatal; otherwise
publish the raw event (current time, message) with the key. -/
def eventProducerProduce (spec : TypeSpec)
    (aggregate : Option String) (now : Int) (event : Value)
    (key : Option CallerKey) : ProduceResult :=
  match TypeSpec.assert spec event with
  | .error e => .schemaError e
  | .ok _ =>
    if aggregate.isSome && callerKeyTruthy key then .keyOverrideError
    else
      let k : Option (List Nat) :=
        if callerKeyTruthy key then key.map callerKeyBytes
        else derivedKeyer spec event
      if aggregate.isSome && k.isNone then .missingKeyError
      else .published ⟨now, event⟩ k

/-! ### Claim-form definitions for RecordSpec.assert (spec §4.1) -/

/-- Whether a value is an ordinary keyed record (null prototype or
Object.prototype; arrays and typed arrays are not). -/
def Value.isPlainObject : Value → Bool
  | .vObj _ => true
  | _ => false

/-- The claim C8 per-present-key error, written from the spec's words: an
undeclared key is an error, a declared key contributes its field spec's
assertion error, wrapped either way. -/
def presentKeyError (fields : List (String × TypeSpec)) (k : String) (v : Value) :
    Option AErr :=
  if (fields.map Prod.fst).contains k then
    match TypeSpec.assertLookup fields k v with
    | .ok _ => none
    | .error e => some (AErr.mk ("has invalid \"" ++ k ++ "\" field") [e])
  else
    some (AErr.mk ("has invalid \"" ++ k ++ "\" field")
      [AErr.mk "is not a defined key" []])

/-- The claim C8 error list, written from the spec's words: one error per
present key in object-key order, then one missing-required error per
non-optional declared key that is absent, in declaration order. -/
def recordErrorsClaimForm (fields : List (String × TypeSpec))
    (obj : List (String × Value)) : List AErr :=
  obj.filterMap (fun p => presentKeyError fields p.1 p.2) ++
  ((requiredKeys fields).filter (fun k => !((obj.map Prod.fst).contains k))).map
    (fun k => AErr.mk ("is missing required \"" ++ k ++ "\" field") [])

/-- The per-key outcome of one iteration of the record loop, parameterised
by the optional-key and not-yet-seen required-key sets it consults. -/
def loopKeyError (fields : List (String × TypeSpec)) (optKeys req : List String)
    (k : String) (v : Value) : Option AErr :=
  if optKeys.contains k then
    match TypeSpec.assertLookup fields k v with
    | .ok _ => none
    | .error e => some (AErr.mk ("has invalid \"" ++ k ++ "\" field") [e])
  else if req.contains k then
    match TypeSpec.assertLookup fields k v with
    | .ok _ => none
    | .error e => some (AErr.mk ("has invalid \"" ++ k ++ "\" field") [e])
  else
    some (AErr.mk ("has invalid \"" ++ k ++ "\" field")
      [AErr.mk "is not a defined key" []])

/-! ## Shared lemmas -/

theorem natToBytesBE_length (n val : Nat) : (natToBytesBE n val).length = n := by
  simp [natToBytesBE]

theorem sha1_length (msg : List Nat) : (sha1 msg).length = 20 := by
  simp [sha1, natToBytesBE_length]

theorem natToBytesBE_lt (n val : Nat) : ∀ b ∈ natToBytesBE n val, b < 256 := by
  intro b hb
  simp only [natToBytesBE, List.mem_map] at hb
  obtain ⟨i, _, rfl⟩ := hb
  exact Nat.mod_lt _ (by norm_num)

theorem sha1_bytes_lt (msg : List Nat) : ∀ b ∈ sha1 msg, b < 256 := by
  intro b hb
  simp only [sha1, List.mem_append] at hb
  rcases hb with ((((h | h) | h) | h) | h) <;> exact natToBytesBE_lt _ _ _ h

theorem hexChars_length (bs : List Nat) :
    (bs.flatMap byteHexChars).length = 2 * bs.length := by
  induction bs with
  | nil => rfl
  | cons b t ih =>
    simp only [List.flatMap_cons, List.length_append, ih, byteHexChars,
      List.length_cons, List.length_nil]
    omega

theorem toHexLower_length (bs : List Nat) :
    (toHexLower bs).length = 2 * bs.length := by
  simpa [toHexLower, String.length] using hexChars_length bs

theorem hexDigit_mem (n : Nat) (h : n < 16) : hexDigit n ∈ lowerHexChars := by
  interval_cases n <;> decide

theorem toHexLower_chars (bs : List Nat) (hb : ∀ b ∈ bs, b < 256) :
    ∀ c ∈ (toHexLower bs).data, c ∈ lowerHexChars := by
  intro c hc
  simp only [toHexLower, List.mem_flatMap] at hc
  obtain ⟨b, hbmem, hcb⟩ := hc
  have h256 := hb b hbmem
  simp only [byteHexChars, List.mem_cons, List.not_mem_nil, or_false] at hcb
  rcases hcb with rfl | rfl
  · exact hexDigit_mem _ (Nat.div_lt_of_lt_mul (by omega))
  · exact hexDigit_mem _ (Nat.mod_lt _ (by norm_num))

theorem foldl_push_map {α β : Type} (g : α → β) :
    ∀ (l : List α) (init : List β),
      l.foldl (fun acc m => acc ++ [g m]) init = init ++ l.map g := by
  intro l
  induction l with
  | nil => intro init; simp
  | cons a t ih => intro init; simp [ih, List.append_assoc]

theorem foldl_push_flatMap {α β : Type} (h : α → List β) :
    ∀ (l : List α) (init : List β),
      l.foldl (fun acc x => acc ++ h x) init = init ++ l.flatMap h := by
  intro l
  induction l with
  | nil => intro init; simp
  | cons a t ih => intro init; simp [ih, List.append_assoc]

theorem migrateEnvelope_eq {A B : Type} (migration : A → List B)
    (env : EnvelopeM (RawEventM A)) :
    migrateEnvelope migration (consumeMapEnvelope env) =
      (migration env.event.message).map
        (fun m => (⟨env.event.timestamp, m⟩, env.key)) := by
  simp [migrateEnvelope, consumeMapEnvelope, EnvelopeM.map, eventOfRaw, newDate,
    DateM.getTime, foldl_push_map]

theorem ecCatchUp_of_caughtUp (s : ECState) (h : s.caughtUp = true) :
    ecCatchUp s = s := by
  simp [ecCatchUp, h]

theorem ecStep_of_caughtUp (d : Int) (s : ECState) (h : s.caughtUp = true) :
    ∀ t, ecStep d s t = s := by
  intro t
  cases t <;> simp [ecStep, ecCatchUp_of_caughtUp _ h]

theorem ecFold_of_caughtUp (d : Int) :
    ∀ (l : List ECTrigger) (s : ECState), s.caughtUp = true →
      l.foldl (ecStep d) s = s := by
  intro l
  induction l with
  | nil => intro s _; rfl
  | cons t rest ih =>
    intro s hs
    simp only [List.foldl_cons, ecStep_of_caughtUp d s hs t]
    exact ih s hs

theorem ecFold_characterization (d : Int) :
    ∀ (l : List ECTrigger),
      l.foldl (ecStep d) ecInit =
        if l.any (ecFires d) then ⟨true, 1⟩ else ecInit := by
  intro l
  induction l with
  | nil => rfl
  | cons t rest ih =>
    simp only [List.foldl_cons, List.any_cons]
    by_cases hf : ecFires d t = true
    · have hstep : ecStep d ecInit t = ⟨true, 1⟩ := by
        cases t with
        | deliver age =>
          simp [ecFires] at hf
          simp [ecStep, hf, ecCatchUp, ecInit]
        | idleTimeout => simp [ecStep, ecCatchUp, ecInit]
        | abortSignal => simp [ecStep, ecCatchUp, ecInit]
      rw [hstep, ecFold_of_caughtUp d rest ⟨true, 1⟩ rfl]
      simp [hf]
    · have hstep : ecStep d ecInit t = ecInit := by
        cases t with
        | deliver age =>
          simp [ecFires] at hf
          simp [ecStep, hf]
        | idleTimeout => simp [ecFires] at hf
        | abortSignal => simp [ecFires] at hf
      rw [hstep, ih]
      simp [hf]

theorem migRun_of_running (s : MigRunState) (p : Nat) (h : s.running = some p) :
    migRun s = (p, s) := by
  simp [migRun, h]

theorem migRunN_saturated :
    ∀ (n : Nat) (s : MigRunState) (p : Nat), s.running = some p →
      migRunN n s = (List.replicate n p, s) := by
  intro n
  induction n with
  | zero => intro s p _; rfl
  | succ m ih =>
    intro s p h
    simp only [migRunN, migRun_of_running s p h, ih s p h, List.replicate_succ]

/-! ## Claim C2 — Migrator replication fidelity -/

/-- Claim C2: every output of the migration function applied to a consumed
envelope's source message is produced to the destination, in iteration
order, carrying the source event's original timestamp and the source
envelope's partition key; over a whole run the destination topic holds
exactly the flatMap image of the source envelopes. -/
theorem migrator_replication_fidelity {A B : Type} (migration : A → List B)
    (envs : List (EnvelopeM (RawEventM A))) (env : EnvelopeM (RawEventM A)) :
    migratorRunLoop migration envs =
      envs.flatMap (fun e =>
        (migration e.event.message).map
          (fun m => (⟨e.event.timestamp, m⟩, e.key))) ∧
    (∀ p ∈ migrateEnvelope migration (consumeMapEnvelope env),
        p.1.timestamp = env.event.timestamp ∧ p.2 = env.key) ∧
    (migrateEnvelope migration (consumeMapEnvelope env)).map (fun p => p.1.message) =
      migration env.event.message := by
  refine ⟨?_, ?_, ?_⟩
  · rw [migratorRunLoop]
    have := foldl_push_flatMap
      (fun e => migrateEnvelope migration (consumeMapEnvelope e)) envs []
    rw [this, List.nil_append]
    apply List.flatMap_congr
    intro e _
    exact migrateEnvelope_eq migration e
  · intro p hp
    rw [migrateEnvelope_eq] at hp
    simp only [List.mem_map] at hp
    obtain ⟨m, _, rfl⟩ := hp
    exact ⟨rfl, rfl⟩
  · rw [migrateEnvelope_eq, List.map_map]
    simp [Function.comp_def]

/-- Witness for C2 at a concrete envelope: for migration n to [n+1, n+2],
the produced record (timestamp 100, message 6) with key [1] is among the
outputs, and it carries the source event's timestamp 100 and key [1]. -/
theorem migrator_replication_fidelity_witness :
    ((⟨⟨100, 6⟩, some [1]⟩ : RawEventM Int × Option (List Nat)) ∈
      migrateEnvelope (fun n : Int => [n + 1, n + 2])
        (consumeMapEnvelope ⟨⟨100, 5⟩, some [1], 7, false⟩)) ∧
    (⟨⟨100, 6⟩, some [1]⟩ : RawEventM Int × Option (List Nat)).1.timestamp =
      (⟨⟨100, 5⟩, some [1], 7, false⟩ : EnvelopeM (RawEventM Int)).event.timestamp ∧
    (⟨⟨100, 6⟩, some [1]⟩ : RawEventM Int × Option (List Nat)).2 =
      (⟨⟨100, 5⟩, some [1], 7, false⟩ : EnvelopeM (RawEventM Int)).key := by
  have hmem : (⟨⟨100, 6⟩, some [1]⟩ : RawEventM Int × Option (List Nat)) ∈
      migrateEnvelope (fun n : Int => [n + 1, n + 2])
        (consumeMapEnvelope ⟨⟨100, 5⟩, some [1], 7, false⟩) := by decide
  have hc := (migrator_replication_fidelity (fun n : Int => [n + 1, n + 2]) []
    ⟨⟨100, 5⟩, some [1], 7, false⟩).2.1 _ hmem
  exact ⟨hmem, hc.1, hc.2⟩

/-! ## Claim C4 — the catch-up callback latches exactly once -/

/-- Claim C4: over any sequence of the three trigger occurrences (recent
delivery, idle timer expiry, abort), onCatchUp is invoked exactly once as
soon as any of them fires, caughtUp stays true, and later occurrences cause
no further invocation. -/
theorem eventConsumer_onCatchUp_once (d : Int) (tr : List ECTrigger)
    (h : tr.any (ecFires d) = true) :
    (ecRun d tr).invocations = 1 ∧
    (ecRun d tr).caughtUp = true ∧
    (∀ more : List ECTrigger, more.foldl (ecStep d) (ecRun d tr) = ecRun d tr) := by
  have hc := ecFold_characterization d tr
  rw [ecRun, hc, if_pos h]
  exact ⟨rfl, rfl, fun more => ecFold_of_caughtUp d more ⟨true, 1⟩ rfl⟩

/-- Witness for C4 at a concrete trigger sequence: a stale delivery, an
idle expiry, an abort and a recent delivery invoke the callback once. -/
theorem eventConsumer_onCatchUp_once_witness :
    ([ECTrigger.deliver 5000, ECTrigger.idleTimeout, ECTrigger.abortSignal,
        ECTrigger.deliver 1].any (ecFires 1000) = true) ∧
    (ecRun 1000 [ECTrigger.deliver 5000, ECTrigger.idleTimeout,
        ECTrigger.abortSignal, ECTrigger.deliver 1]).invocations = 1 ∧
    ([ECTrigger.abortSignal].foldl (ecStep 1000)
        (ecRun 1000 [ECTrigger.deliver 5000, ECTrigger.idleTimeout,
          ECTrigger.abortSignal, ECTrigger.deliver 1]) =
      ecRun 1000 [ECTrigger.deliver 5000, ECTrigger.idleTimeout,
        ECTrigger.abortSignal, ECTrigger.deliver 1]) := by
  refine ⟨by decide, ?_, ?_⟩
  · exact (eventConsumer_onCatchUp_once 1000 _ (by decide)).1
  · exact (eventConsumer_onCatchUp_once 1000 _ (by decide)).2.2 [ECTrigger.abortSignal]

/-! ## Claim C7 — Migrator.run is idempotent -/

/-- Claim C7: from a fresh Migrator, every run call after the first returns
the very same promise as the first, the memo cell never changes again, and
the migration work is started exactly once however many calls are made. -/
theorem migrator_run_idempotent (n : Nat) :
    (migRunN (n + 1) migFresh).1 = List.replicate (n + 1) 0 ∧
    (migRunN (n + 1) migFresh).2.starts = 1 ∧
    (migRunN (n + 1) migFresh).2.running = some 0 ∧
    (∀ s : MigRunState, migRun (migRun s).2 = ((migRun s).1, (migRun s).2)) := by
  have hfirst : migRun migFresh = (0, ⟨some 0, 1, 1⟩) := rfl
  have hrest := migRunN_saturated n ⟨some 0, 1, 1⟩ 0 rfl
  refine ⟨?_, ?_, ?_, ?_⟩
  · simp [migRunN, hfirst, hrest, List.replicate_succ]
  · simp [migRunN, hfirst, hrest]
  · simp [migRunN, hfirst, hrest]
  · intro s
    cases hs : s.running with
    | some p =>
      rw [migRun_of_running s p hs, migRun_of_running s p hs]
    | none =>
      have h1 : migRun s = (s.nextId, ⟨some s.nextId, s.nextId + 1, s.starts + 1⟩) := by
        simp [migRun, hs]
      rw [h1, migRun_of_running _ s.nextId rfl]

/-! ## Claim C10 — Envelope.map shares key and acker; nack is sticky -/

/-- Claim C10: a mapped envelope (including the Event-typed envelope that
EventConsumer.consume returns) carries the same key and the same underlying
acker as the original, so acking or nacking it targets the original
substrate delivery; dispose of a fresh mapped envelope acks the original
acker, and after nack() the scoped release performs no ack. -/
theorem envelope_map_ack_identity {E E2 M : Type} (env : EnvelopeM E)
    (f : E → E2) (envR : EnvelopeM (RawEventM M)) :
    ((env.map f).key = env.key) ∧
    ((env.map f).acker = env.acker) ∧
    ((env.map f).nack.2 = AckAction.nackSignal env.acker) ∧
    ((env.map f).disposeActions = [AckAction.ack env.acker]) ∧
    (((env.map f).nack.1).disposeActions = []) ∧
    ((env.nack.1).disposeActions = []) ∧
    ((consumeMapEnvelope envR).key = envR.key) ∧
    ((consumeMapEnvelope envR).acker = envR.acker) := by
  refine ⟨rfl, rfl, rfl, ?_, ?_, ?_, rfl, rfl⟩
  · simp [EnvelopeM.map, EnvelopeM.disposeActions]
  · simp [EnvelopeM.map, EnvelopeM.nack, EnvelopeM.disposeActions]
  · simp [EnvelopeM.nack, EnvelopeM.disposeActions]

/-! ## Claim C3 — the N-way merge selection -/

theorem selGo_isSome :
    ∀ (l : List (Option Int)) (i : Nat) (x : Nat × Int),
      (selGo i l (some x)).isSome = true := by
  intro l
  induction l with
  | nil => intro i x; rfl
  | cons d rest ih =>
    intro i x
    cases d with
    | none => exact ih (i + 1) x
    | some dv =>
      obtain ⟨j, e⟩ := x
      simp only [selGo]
      by_cases h : e > dv
      · rw [if_pos h]; exact ih _ _
      · rw [if_neg h]; exact ih _ _

theorem selGo_eq_none :
    ∀ (l : List (Option Int)) (i : Nat) (acc : Option (Nat × Int)),
      selGo i l acc = none ↔ (acc = none ∧ ∀ d ∈ l, d = none) := by
  intro l
  induction l with
  | nil =>
    intro i acc
    simp [selGo]
  | cons d rest ih =>
    intro i acc
    cases d with
    | none =>
      rw [show selGo i (none :: rest) acc = selGo (i + 1) rest acc from rfl, ih]
      constructor
      · rintro ⟨ha, hr⟩
        refine ⟨ha, ?_⟩
        intro x hx
        rcases List.mem_cons.mp hx with rfl | hx2
        · rfl
        · exact hr x hx2
      · rintro ⟨ha, hr⟩
        exact ⟨ha, fun x hx => hr x (List.mem_cons_of_mem _ hx)⟩
    | some dv =>
      constructor
      · intro hnone
        exfalso
        cases acc with
        | none =>
          have := selGo_isSome rest (i + 1) (i, dv)
          simp only [selGo] at hnone
          rw [hnone] at this
          exact Bool.false_ne_true this
        | some x =>
          obtain ⟨k, e⟩ := x
          simp only [selGo] at hnone
          by_cases h : e > dv
          · rw [if_pos h] at hnone
            have := selGo_isSome rest (i + 1) (i, dv)
            rw [hnone] at this
            exact Bool.false_ne_true this
          · rw [if_neg h] at hnone
            have := selGo_isSome rest (i + 1) (k, e)
            rw [hnone] at this
            exact Bool.false_ne_true this
      · rintro ⟨_, hall⟩
        exact absurd (hall (some dv) (List.mem_cons_self _ _)) (by simp)

theorem selGo_spec :
    ∀ (l : List (Option Int)) (i : Nat) (acc : Option (Nat × Int)) (j : Nat) (t : Int),
      (∀ k e, acc = some (k, e) → k < i) →
      selGo i l acc = some (j, t) →
      ((acc = some (j, t)) ∨ ∃ m : Nat, l[m]? = some (some t) ∧ j = i + m) ∧
      (∀ (m : Nat) (u : Int), l[m]? = some (some u) → t ≤ u) ∧
      (∀ (m : Nat) (u : Int), l[m]? = some (some u) → i + m < j → t < u) ∧
      (∀ k e, acc = some (k, e) → t ≤ e ∧ (j ≠ k → t < e)) := by
  intro l
  induction l with
  | nil =>
    intro i acc j t _ hsel
    simp only [selGo] at hsel
    refine ⟨Or.inl hsel, by simp, by simp, ?_⟩
    intro k e hke
    rw [hsel] at hke
    injection hke with h
    injection h with h1 h2
    exact ⟨le_of_eq h2, fun hne => absurd h1 hne⟩
  | cons d rest ih =>
    intro i acc j t hacc hsel
    cases d with
    | none =>
      simp only [selGo] at hsel
      have hacc2 : ∀ k e, acc = some (k, e) → k < i + 1 :=
        fun k e h => Nat.lt_succ_of_lt (hacc k e h)
      obtain ⟨hA, hB, hC, hD⟩ := ih (i + 1) acc j t hacc2 hsel
      refine ⟨?_, ?_, ?_, hD⟩
      · rcases hA with h | ⟨m, hm, hj⟩
        · exact Or.inl h
        · exact Or.inr ⟨m + 1, by simpa using hm, by omega⟩
      · intro m u hmu
        cases m with
        | zero => simp at hmu
        | succ m2 => exact hB m2 u (by simpa using hmu)
      · intro m u hmu hlt
        cases m with
        | zero => simp at hmu
        | succ m2 => exact hC m2 u (by simpa using hmu) (by omega)
    | some dv =>
      cases acc with
      | none =>
        simp only [selGo] at hsel
        have hacc2 : ∀ k e, (some (i, dv) : Option (Nat × Int)) = some (k, e) → k < i + 1 := by
          intro k e h
          injection h with h2
          injection h2 with h3 h4
          omega
        obtain ⟨hA, hB, hC, hD⟩ := ih (i + 1) (some (i, dv)) j t hacc2 hsel
        have hDd := hD i dv rfl
        refine ⟨?_, ?_, ?_, ?_⟩
        · rcases hA with h | ⟨m, hm, hj⟩
          · injection h with h2
            injection h2 with h3 h4
            exact Or.inr ⟨0, by simp [h4], by omega⟩
          · exact Or.inr ⟨m + 1, by simpa using hm, by omega⟩
        · intro m u hmu
          cases m with
          | zero =>
            obtain rfl : dv = u := by simpa using hmu
            exact hDd.1
          | succ m2 => exact hB m2 u (by simpa using hmu)
        · intro m u hmu hlt
          cases m with
          | zero =>
            obtain rfl : dv = u := by simpa using hmu
            exact hDd.2 (by omega)
          | succ m2 => exact hC m2 u (by simpa using hmu) (by omega)
        · intro k e hke
          simp at hke
      | some x =>
        obtain ⟨k0, e0⟩ := x
        have hk0 : k0 < i := hacc k0 e0 rfl
        simp only [selGo] at hsel
        by_cases hgt : e0 > dv
        · rw [if_pos hgt] at hsel
          have hacc2 : ∀ k e, (some (i, dv) : Option (Nat × Int)) = some (k, e) → k < i + 1 := by
            intro k e h
            injection h with h2
            injection h2 with h3 h4
            omega
          obtain ⟨hA, hB, hC, hD⟩ := ih (i + 1) (some (i, dv)) j t hacc2 hsel
          have hDd := hD i dv rfl
          refine ⟨?_, ?_, ?_, ?_⟩
          · rcases hA with h | ⟨m, hm, hj⟩
            · injection h with h2
              injection h2 with h3 h4
              exact Or.inr ⟨0, by simp [h4], by omega⟩
            · exact Or.inr ⟨m + 1, by simpa using hm, by omega⟩
          · intro m u hmu
            cases m with
            | zero =>
              obtain rfl : dv = u := by simpa using hmu
              exact hDd.1
            | succ m2 => exact hB m2 u (by simpa using hmu)
          · intro m u hmu hlt
            cases m with
            | zero =>
              obtain rfl : dv = u := by simpa using hmu
              exact hDd.2 (by omega)
            | succ m2 => exact hC m2 u (by simpa using hmu) (by omega)
          · intro k e hke
            injection hke with h2
            injection h2 with h3 h4
            subst h3; subst h4
            exact ⟨le_trans hDd.1 (le_of_lt hgt), fun _ => lt_of_le_of_lt hDd.1 hgt⟩
        · rw [if_neg hgt] at hsel
          have hle : dv ≥ e0 := by omega
          have hacc2 : ∀ k e, (some (k0, e0) : Option (Nat × Int)) = some (k, e) → k < i + 1 := by
            intro k e h
            injection h with h2
            injection h2 with h3 h4
            omega
          obtain ⟨hA, hB, hC, hD⟩ := ih (i + 1) (some (k0, e0)) j t hacc2 hsel
          have hD0 := hD k0 e0 rfl
          refine ⟨?_, ?_, ?_, ?_⟩
          · rcases hA with h | ⟨m, hm, hj⟩
            · exact Or.inl h
            · exact Or.inr ⟨m + 1, by simpa using hm, by omega⟩
          · intro m u hmu
            cases m with
            | zero =>
              obtain rfl : dv = u := by simpa using hmu
              exact le_trans hD0.1 hle
            | succ m2 => exact hB m2 u (by simpa using hmu)
          · intro m u hmu hlt
            cases m with
            | zero =>
              obtain rfl : dv = u := by simpa using hmu
              have hjk : j ≠ k0 := by omega
              exact lt_of_lt_of_le (hD0.2 hjk) hle
            | succ m2 => exact hC m2 u (by simpa using hmu) (by omega)
          · intro k e hke
            injection hke with h2
            injection h2 with h3 h4
            subst h3; subst h4
            exact hD0

/-- Claim C3: one round of MultiConsumerIngestor.next selects, among the
peeks that returned a timestamp, the earliest one, breaking ties toward the
smallest registration index; when every peek returned none it waits for the
next round and recurses, and a round with a selected ingestor is taken. -/
theorem multiConsumerIngestor_next_selection (peeked : List (Option Int)) :
    ((selectEarliest peeked = none) ↔ ∀ d ∈ peeked, d = none) ∧
    (∀ j t, selectEarliest peeked = some (j, t) →
      peeked[j]? = some (some t) ∧
      (∀ (m : Nat) (u : Int), peeked[m]? = some (some u) → t ≤ u) ∧
      (∀ (m : Nat) (u : Int), peeked[m]? = some (some u) → m < j → t < u)) ∧
    (∀ rest, (∀ d ∈ peeked, d = none) →
      multiNext (peeked :: rest) = multiNext rest) ∧
    (∀ rest j t, selectEarliest peeked = some (j, t) →
      multiNext (peeked :: rest) = some (j, t)) := by
  refine ⟨?_, ?_, ?_, ?_⟩
  · rw [selectEarliest, selGo_eq_none]
    simp
  · intro j t hsel
    obtain ⟨hA, hB, hC, _⟩ :=
      selGo_spec peeked 0 none j t (by intro k e h; simp at h) hsel
    refine ⟨?_, hB, ?_⟩
    · rcases hA with h | ⟨m, hm, hj⟩
      · simp at h
      · rw [hj]; simpa using hm
    · intro m u hmu hlt
      exact hC m u hmu (by omega)
  · intro rest hall
    have hnone : selectEarliest peeked = none := by
      rw [selectEarliest, selGo_eq_none]
      exact ⟨rfl, hall⟩
    simp [multiNext, hnone]
  · intro rest j t hsel
    simp [multiNext, hsel]

/-- Witness for C3 at a concrete round list: among peeks
[some 5, none, some 3, some 3] the earliest timestamp 3 at the smaller
index 2 wins (3 ≤ 5, and the later tie at index 3 does not displace it),
and an all-none round defers to the next round's selection. -/
theorem multiConsumerIngestor_next_selection_witness :
    selectEarliest [some 5, none, some 3, some 3] = some (2, 3) ∧
    (3 : Int) ≤ 5 ∧
    multiNext [[none, none], [some 9, some 2]] = some (1, 2) := by
  have h2 := (multiConsumerIngestor_next_selection [some 5, none, some 3, some 3]).2.1
  have hsel : selectEarliest [some 5, none, some 3, some 3] = some (2, 3) := by
    simp [selectEarliest, selGo]
  have hrace := (multiConsumerIngestor_next_selection [none, none]).2.2.1
    [[some 9, some 2]] (by simp)
  have htake := (multiConsumerIngestor_next_selection [some 9, some 2]).2.2.2
    [] 1 2 (by simp [selectEarliest, selGo])
  exact ⟨hsel, (h2 2 3 hsel).2.1 0 5 (by simp), hrace.trans htake⟩

/-! ## Claim C6 — the merge peek timeout default -/

/-- Counterexample to C6: with no catch-up options the merge peek timeout is
the fixed 300 ms, not 0.7 times EventConsumer's default 1000 ms catch-up
delay. -/
theorem multiIngestor_timeout_default_counterexample :
    multiIngestorTimeoutMs none = 300 ∧
    multiIngestorTimeoutMs none ≠ (7 / 10) * DEFAULT_CATCH_UP_DELAY := by
  refine ⟨rfl, ?_⟩
  norm_num [multiIngestorTimeoutMs, MULTI_DEFAULT_TIMEOUT_MS, DEFAULT_CATCH_UP_DELAY]

/-- Claim C6 as amended: the merge peek timeout is the fixed 300 ms default
whenever no catchUpDelayMs is supplied (the EventConsumer default of 1000 ms
is not consulted), and is 0.7 times catchUpDelayMs when it is supplied. -/
theorem multiIngestor_timeout_amended :
    multiIngestorTimeoutMs none = 300 ∧
    (∀ o : CatchUpOptionsM, o.catchUpDelayMs = none →
      multiIngestorTimeoutMs (some o) = 300) ∧
    (∀ (o : CatchUpOptionsM) (d : Rat), o.catchUpDelayMs = some d →
      multiIngestorTimeoutMs (some o) = d * (7 / 10)) ∧
    DEFAULT_CATCH_UP_DELAY = 1000 := by
  refine ⟨rfl, ?_, ?_, rfl⟩
  · intro o h
    simp [multiIngestorTimeoutMs, h, MULTI_DEFAULT_TIMEOUT_MS]
  · intro o d h
    simp [multiIngestorTimeoutMs, h]

/-- Witness for the amended C6 at catchUpDelayMs = 2000: the timeout is
2000 times 0.7, which is 1400 ms. -/
theorem multiIngestor_timeout_amended_witness :
    CatchUpOptionsM.catchUpDelayMs ⟨none, some 2000⟩ = some 2000 ∧
    multiIngestorTimeoutMs (some ⟨none, some 2000⟩) = 2000 * (7 / 10) ∧
    (2000 : Rat) * (7 / 10) = 1400 := by
  refine ⟨rfl, ?_, by norm_num⟩
  exact multiIngestor_timeout_amended.2.2.1 ⟨none, some 2000⟩ 2000 rfl

/-! ## Claim C5 — the read-model namespace -/

theorem readModelDigest_length (rm : ReadModelM) :
    (readModelDigest rm).length = 40 := by
  simp [readModelDigest, toHexLower_length, sha1_length]

/-- Counterexample to C5: for the read model named "foo" under snake_case,
the code's namespace is "foo_h" followed by the digest (the _HASH slice
trick keeps the h), not "foo_" followed by the digest as the claim's
cased-name + suffix-separator + hash formula states. -/
theorem readModel_namespace_counterexample :
    readModelNamespace ⟨"foo", [], []⟩ snakeCase ≠
      readModelNamespaceClaimForm ⟨"foo", [], []⟩ snakeCase := by
  intro h
  have hL : readModelNamespace ⟨"foo", [], []⟩ snakeCase =
      "foo_h" ++ readModelDigest ⟨"foo", [], []⟩ := rfl
  have hR : readModelNamespaceClaimForm ⟨"foo", [], []⟩ snakeCase =
      "foo_" ++ readModelDigest ⟨"foo", [], []⟩ := rfl
  rw [hL, hR] at h
  have hlen := congrArg String.length h
  rw [String.length_append, String.length_append, readModelDigest_length,
    show ("foo_h" : String).length = 5 from rfl,
    show ("foo_" : String).length = 4 from rfl] at hlen
  omega

/-- Claim C5 as amended: the namespace is namingConvention.convert of
name + "_HASH" with the last three characters dropped, followed by the
lowercase SHA-1 hex digest of the comma-joined stringified initializers and
ingestors with their nonces; under snake_case this makes the prefix
cased(name) + "_h", not cased(name) + "_". -/
theorem readModel_namespace_amended (rm : ReadModelM) (cm : CasingM) :
    readModelNamespace rm cm =
      strDropRight (cm.assemble (((splitWords (rm.name ++ "_HASH")).map
          (fun s => strToLower (strTrim s))).filter (fun s => s ≠ ""))) 3 ++
        toHexLower (sha1 (utf8Bytes (readModelData rm))) ∧
    (∀ (ings : List RegisteredIngestorM) (inits : List RegisteredInitializerM),
      readModelNamespace ⟨"foo", ings, inits⟩ snakeCase =
        "foo_h" ++ readModelDigest ⟨"foo", ings, inits⟩) := by
  exact ⟨rfl, fun ings inits => rfl⟩

/-! ## Claim C1 — EventType topic naming -/

theorem eventType_hashDigest_length (et : EventTypeM) :
    et.hashDigest.length = 40 := by
  simp [EventTypeM.hashDigest, toHexLower_length, sha1_length]

theorem eventType_hashDigest_ne_empty (et : EventTypeM) :
    et.hashDigest ≠ "" := by
  intro h
  have hlen := eventType_hashDigest_length et
  rw [h] at hlen
  exact absurd hlen (by decide)

theorem intercalate_singleton (d : String) : String.intercalate "-" [d] = d := by
  simp [String.intercalate, String.intercalate.go]

theorem intercalate_pair (a b : String) :
    String.intercalate "-" [a, b] = a ++ "-" ++ b := by
  simp [String.intercalate, String.intercalate.go]

/-- Counterexample to C1: for an EventType with an empty name (and no
aggregate), topicName is "-" followed by the digest — the code joins the
name unconditionally — while the claim's filter-nonempty formula yields the
digest alone. -/
theorem eventType_topicName_counterexample :
    EventTypeM.topicName ⟨"", TypeSpec.string, 0, none⟩ ≠
      topicNameClaimForm ⟨"", TypeSpec.string, 0, none⟩ := by
  intro h
  have hL : EventTypeM.topicName ⟨"", TypeSpec.string, 0, none⟩ =
      "-" ++ EventTypeM.hashDigest ⟨"", TypeSpec.string, 0, none⟩ := rfl
  have hR : topicNameClaimForm ⟨"", TypeSpec.string, 0, none⟩ =
      EventTypeM.hashDigest ⟨"", TypeSpec.string, 0, none⟩ := by
    simp only [topicNameClaimForm, List.nil_append, List.filter_cons]
    simp [eventType_hashDigest_ne_empty ⟨"", TypeSpec.string, 0, none⟩,
      intercalate_singleton]
  rw [hL, hR] at h
  have hlen := congrArg String.length h
  rw [String.length_append, show ("-" : String).length = 1 from rfl] at hlen
  omega

/-- Claim C1 as amended: for every EventType whose name is non-empty,
topicName equals the non-empty tokens [aggregate name if any, name, SHA-1
digest of toString() + decimal nonce] joined by "-" (with an empty name the
code still joins, leaving a leading "-"); the digest is 40 lowercase hex
characters; and EventTypes with equal name, nonce, structurally equal schema
and equal aggregate have the same topic name. -/
theorem eventType_topicName_amended (et et2 : EventTypeM) (hname : et.name ≠ "")
    (h1 : et2.name = et.name) (h2 : et2.spec = et.spec)
    (h3 : et2.nonce = et.nonce) (h4 : et2.aggregate = et.aggregate) :
    et.topicName = topicNameClaimForm et ∧
    et.hashDigest.length = 40 ∧
    (∀ c ∈ et.hashDigest.data, c ∈ lowerHexChars) ∧
    et2.topicName = et.topicName := by
  refine ⟨?_, eventType_hashDigest_length et, ?_, ?_⟩
  · cases hagg : et.aggregate with
    | none =>
      simp only [EventTypeM.topicName, topicNameClaimForm, hagg, List.nil_append,
        List.filter_cons]
      simp [hname, eventType_hashDigest_ne_empty et, intercalate_pair]
    | some a =>
      simp [EventTypeM.topicName, topicNameClaimForm, hagg]
  · intro c hc
    exact toHexLower_chars _ (sha1_bytes_lt _) c hc
  · obtain ⟨n, s, o, ag⟩ := et
    obtain ⟨n2, s2, o2, ag2⟩ := et2
    simp only at h1 h2 h3 h4
    subst h1; subst h2; subst h3; subst h4
    rfl

/-- Witness for the amended C1 at a concrete EventType named "Registered"
with schema Record(id: String), nonce 0, no aggregate. -/
theorem eventType_topicName_amended_witness :
    ("Registered" : String) ≠ "" ∧
    EventTypeM.topicName
        ⟨"Registered", TypeSpec.record [("id", TypeSpec.string)], 0, none⟩ =
      topicNameClaimForm
        ⟨"Registered", TypeSpec.record [("id", TypeSpec.string)], 0, none⟩ ∧
    (EventTypeM.hashDigest
        ⟨"Registered", TypeSpec.record [("id", TypeSpec.string)], 0, none⟩).length = 40 := by
  refine ⟨by decide, ?_, ?_⟩
  · exact (eventType_topicName_amended _ _ (by decide) rfl rfl rfl rfl).1
  · exact (eventType_topicName_amended _ _ (by decide) rfl rfl rfl rfl).2.1

/-! ## Claim C9 — aggregate-bound EventProducer key handling -/

/-- Counterexample to C9 on two fronts. First, inside aggregate "User",
producing a valid event with the caller-supplied key "" does not throw — the
empty string is falsy, so the key test misses it and the event is published
with the key derived from id ("u1" as UTF-8, [117, 49]). Second, for a
Number id the published key is not the 8-byte float64 encoding: the
Uint8Array constructor element-converts the one-element Float64Array, so the
key is the single byte ToUint8(id) — ids 257 and 1 both publish under the
one-byte key [1], whose length is 1, not 8. -/
theorem eventProducer_produce_counterexample :
    eventProducerProduce (TypeSpec.record [("id", TypeSpec.string)])
        (some "User") 5 (Value.vObj [("id", Value.vStr "u1")])
        (some (CallerKey.str "")) =
      ProduceResult.published ⟨5, Value.vObj [("id", Value.vStr "u1")]⟩
        (some [117, 49]) ∧
    eventProducerProduce (TypeSpec.record [("id", TypeSpec.string)])
        (some "User") 5 (Value.vObj [("id", Value.vStr "u1")])
        (some (CallerKey.str "")) ≠
      ProduceResult.keyOverrideError ∧
    eventProducerProduce (TypeSpec.record [("id", TypeSpec.number)])
        (some "User") 9 (Value.vObj [("id", Value.vNum 257)]) none =
      ProduceResult.published ⟨9, Value.vObj [("id", Value.vNum 257)]⟩
        (some [1]) ∧
    eventProducerProduce (TypeSpec.record [("id", TypeSpec.number)])
        (some "User") 9 (Value.vObj [("id", Value.vNum 1)]) none =
      ProduceResult.published ⟨9, Value.vObj [("id", Value.vNum 1)]⟩
        (some [1]) ∧
    ([1] : List Nat).length ≠ 8 := by
  have hpub : eventProducerProduce
      (TypeSpec.record [("id", TypeSpec.string)]) (some "User") 5
      (Value.vObj [("id", Value.vStr "u1")]) (some (CallerKey.str "")) =
      ProduceResult.published ⟨5, Value.vObj [("id", Value.vStr "u1")]⟩
        (some [117, 49]) := by
    simp [eventProducerProduce, TypeSpec.assert, TypeSpec.recordErrors,
      TypeSpec.recordLoop, TypeSpec.assertLookup, TypeSpec.isOptional,
      optionalKeys, requiredKeys, callerKeyTruthy, derivedKeyer, lookupField,
      TypeSpec.unwrapOptional, getIdValue, utf8Bytes, utf8EncodeCharBytes]
  refine ⟨hpub, ?_, ?_, ?_, by decide⟩
  · rw [hpub]
    intro hcontra
    exact ProduceResult.noConfusion hcontra
  · simp [eventProducerProduce, TypeSpec.assert, TypeSpec.recordErrors,
      TypeSpec.recordLoop, TypeSpec.assertLookup, TypeSpec.isOptional,
      optionalKeys, requiredKeys, callerKeyTruthy, derivedKeyer, lookupField,
      TypeSpec.unwrapOptional, getIdValue, toUint8, ratTrunc]
    decide
  · simp [eventProducerProduce, TypeSpec.assert, TypeSpec.recordErrors,
      TypeSpec.recordLoop, TypeSpec.assertLookup, TypeSpec.isOptional,
      optionalKeys, requiredKeys, callerKeyTruthy, derivedKeyer, lookupField,
      TypeSpec.unwrapOptional, getIdValue, toUint8, ratTrunc]
    decide

/-- Claim C9 as amended: for a valid event produced inside an aggregate, a
truthy caller key (non-empty string or any byte array) is rejected, a null
derived key is fatal, and otherwise the event is published with the key
derived from id — the UTF-8 bytes of a String id, the bytes of a Bytes id,
and for a Number id the single byte ToUint8(id) that the Uint8Array
constructor's element conversion of the one-element Float64Array yields —
after unwrapping an Optional id spec. -/
theorem eventProducer_produce_amended (spec : TypeSpec)
    (agg : String) (now : Int) (event : Value) (key : Option CallerKey)
    (hok : TypeSpec.assert spec event = .ok ()) :
    (callerKeyTruthy key = true →
      eventProducerProduce spec (some agg) now event key =
        ProduceResult.keyOverrideError) ∧
    (callerKeyTruthy key = false → derivedKeyer spec event = none →
      eventProducerProduce spec (some agg) now event key =
        ProduceResult.missingKeyError) ∧
    (∀ bs, callerKeyTruthy key = false → derivedKeyer spec event = some bs →
      eventProducerProduce spec (some agg) now event key =
        ProduceResult.published ⟨now, event⟩ (some bs)) ∧
    (∀ fields idSpec s, spec = TypeSpec.record fields →
      lookupField fields "id" = some idSpec →
      TypeSpec.unwrapOptional idSpec = TypeSpec.string →
      getIdValue event = some (Value.vStr s) →
      derivedKeyer spec event = some (utf8Bytes s)) ∧
    (∀ fields idSpec bs, spec = TypeSpec.record fields →
      lookupField fields "id" = some idSpec →
      TypeSpec.unwrapOptional idSpec = TypeSpec.bytes →
      getIdValue event = some (Value.vBytes bs) →
      derivedKeyer spec event = some bs) ∧
    (∀ fields idSpec q, spec = TypeSpec.record fields →
      lookupField fields "id" = some idSpec →
      TypeSpec.unwrapOptional idSpec = TypeSpec.number →
      getIdValue event = some (Value.vNum q) →
      derivedKeyer spec event = some [toUint8 q]) := by
  refine ⟨?_, ?_, ?_, ?_, ?_, ?_⟩
  · intro htruthy
    simp [eventProducerProduce, hok, htruthy]
  · intro hfalse hnone
    simp [eventProducerProduce, hok, hfalse, hnone]
  · intro bs hfalse hsome
    simp [eventProducerProduce, hok, hfalse, hsome]
  · intro fields idSpec s hspec hlook hunwrap hid
    subst hspec
    simp [derivedKeyer, hlook, hunwrap, hid]
  · intro fields idSpec bs hspec hlook hunwrap hid
    subst hspec
    simp [derivedKeyer, hlook, hunwrap, hid]
  · intro fields idSpec q hspec hlook hunwrap hid
    subst hspec
    simp [derivedKeyer, hlook, hunwrap, hid]

/-- Witness for the amended C9: with schema Record(id: String) inside
aggregate "User", a truthy caller key is rejected and a bare produce
publishes under the UTF-8 bytes of the id; with schema Record(id: Number)
the derived key is the single byte ToUint8(257) = 1. -/
theorem eventProducer_produce_amended_witness :
    TypeSpec.assert (TypeSpec.record [("id", TypeSpec.string)])
        (Value.vObj [("id", Value.vStr "u1")]) = .ok () ∧
    eventProducerProduce (TypeSpec.record [("id", TypeSpec.string)])
        (some "User") 7 (Value.vObj [("id", Value.vStr "u1")])
        (some (CallerKey.str "k")) = ProduceResult.keyOverrideError ∧
    eventProducerProduce (TypeSpec.record [("id", TypeSpec.string)])
        (some "User") 7 (Value.vObj [("id", Value.vStr "u1")]) none =
      ProduceResult.published ⟨7, Value.vObj [("id", Value.vStr "u1")]⟩
        (some (utf8Bytes "u1")) ∧
    derivedKeyer (TypeSpec.record [("id", TypeSpec.number)])
        (Value.vObj [("id", Value.vNum 257)]) = some [toUint8 257] ∧
    toUint8 257 = 1 := by
  have hok : TypeSpec.assert (TypeSpec.record [("id", TypeSpec.string)])
      (Value.vObj [("id", Value.vStr "u1")]) = .ok () := by
    simp [TypeSpec.assert, TypeSpec.recordErrors, TypeSpec.recordLoop,
      TypeSpec.assertLookup, TypeSpec.isOptional, optionalKeys, requiredKeys]
  have hokn : TypeSpec.assert (TypeSpec.record [("id", TypeSpec.number)])
      (Value.vObj [("id", Value.vNum 257)]) = .ok () := by
    simp [TypeSpec.assert, TypeSpec.recordErrors, TypeSpec.recordLoop,
      TypeSpec.assertLookup, TypeSpec.isOptional, optionalKeys, requiredKeys]
  refine ⟨hok, ?_, ?_, ?_, by decide⟩
  · exact (eventProducer_produce_amended _ "User" 7 _ _ hok).1 rfl
  · exact (eventProducer_produce_amended _ "User" 7 _ _ hok).2.2.1
      (utf8Bytes "u1") rfl rfl
  · exact (eventProducer_produce_amended _ "User" 9 _ none hokn).2.2.2.2.2
      [("id", TypeSpec.number)] TypeSpec.number 257 rfl rfl rfl rfl

/-! ## Claim C8 — RecordSpec.assert -/

theorem filterMap_congr_mem {α β : Type} (l : List α) (f g : α → Option β)
    (h : ∀ a ∈ l, f a = g a) : l.filterMap f = l.filterMap g := by
  induction l with
  | nil => rfl
  | cons a t ih =>
    rw [List.filterMap_cons, List.filterMap_cons, h a (List.mem_cons_self a t),
      ih (fun x hx => h x (List.mem_cons_of_mem a hx))]

theorem contains_cons_of_ne (ks : List String) (x k : String) (h : x ≠ k) :
    (k :: ks).contains x = ks.contains x := by
  cases hc : ks.contains x with
  | true =>
    have hm : x ∈ ks := by simpa using hc
    have : x ∈ k :: ks := List.mem_cons_of_mem k hm
    simpa using this
  | false =>
    have hm : x ∉ ks := by simpa using hc
    have : x ∉ k :: ks := by
      intro hmem
      rcases List.mem_cons.mp hmem with rfl | h2
      · exact h rfl
      · exact hm h2
    simpa using this

theorem contains_erase_of_ne (l : List String) (x k : String) (h : x ≠ k) :
    (l.erase k).contains x = l.contains x := by
  cases hc : l.contains x with
  | true =>
    have hm : x ∈ l := by simpa using hc
    have : x ∈ l.erase k := (List.mem_erase_of_ne h).mpr hm
    simpa using this
  | false =>
    have hm : x ∉ l := by simpa using hc
    have : x ∉ l.erase k := fun hmem => hm (List.mem_of_mem_erase hmem)
    simpa using this

theorem nodup_keys_entry_unique {α : Type} :
    ∀ (l : List (String × α)), (l.map Prod.fst).Nodup →
      ∀ (k : String) (a b : α), (k, a) ∈ l → (k, b) ∈ l → a = b := by
  intro l
  induction l with
  | nil => intro _ k a b ha _; simp at ha
  | cons p t ih =>
    intro h k a b ha hb
    have hhd : p.1 ∉ t.map Prod.fst := (List.nodup_cons.mp (by simpa using h)).1
    have htl : (t.map Prod.fst).Nodup := (List.nodup_cons.mp (by simpa using h)).2
    rcases List.mem_cons.mp ha with rfl | ha2
    · rcases List.mem_cons.mp hb with heq | hb2
      · injection heq with _ h2
        exact h2.symm
      · exact absurd (List.mem_map.mpr ⟨(k, b), hb2, rfl⟩) hhd
    · rcases List.mem_cons.mp hb with rfl | hb2
      · exact absurd (List.mem_map.mpr ⟨(k, a), ha2, rfl⟩) hhd
      · exact ih htl k a b ha2 hb2

theorem mem_optionalKeys (fields : List (String × TypeSpec)) (k : String) :
    k ∈ optionalKeys fields ↔ ∃ s, (k, s) ∈ fields ∧ s.isOptional = true := by
  simp only [optionalKeys, List.mem_map, List.mem_filter]
  constructor
  · rintro ⟨⟨k1, s⟩, ⟨hmem, hopt⟩, rfl⟩
    exact ⟨s, hmem, hopt⟩
  · rintro ⟨s, hmem, hopt⟩
    exact ⟨(k, s), ⟨hmem, hopt⟩, rfl⟩

theorem mem_requiredKeys (fields : List (String × TypeSpec)) (k : String) :
    k ∈ requiredKeys fields ↔ ∃ s, (k, s) ∈ fields ∧ s.isOptional = false := by
  simp only [requiredKeys, List.mem_map, List.mem_filter]
  constructor
  · rintro ⟨⟨k1, s⟩, ⟨hmem, hopt⟩, rfl⟩
    exact ⟨s, hmem, by simpa using hopt⟩
  · rintro ⟨s, hmem, hopt⟩
    exact ⟨(k, s), ⟨hmem, by simpa using hopt⟩, rfl⟩

theorem declared_iff_opt_or_req (fields : List (String × TypeSpec)) (k : String) :
    k ∈ fields.map Prod.fst ↔
      (k ∈ optionalKeys fields ∨ k ∈ requiredKeys fields) := by
  rw [mem_optionalKeys, mem_requiredKeys]
  constructor
  · intro hmem
    obtain ⟨⟨k1, s⟩, hmem2, rfl⟩ := List.mem_map.mp hmem
    cases hopt : s.isOptional with
    | true => exact Or.inl ⟨s, hmem2, hopt⟩
    | false => exact Or.inr ⟨s, hmem2, hopt⟩
  · rintro (⟨s, hmem2, _⟩ | ⟨s, hmem2, _⟩) <;>
      exact List.mem_map.mpr ⟨(k, s), hmem2, rfl⟩

theorem requiredKeys_nodup (fields : List (String × TypeSpec))
    (hf : (fields.map Prod.fst).Nodup) : (requiredKeys fields).Nodup :=
  hf.sublist ((List.filter_sublist fields).map Prod.fst)

theorem optionalKeys_requiredKeys_disjoint (fields : List (String × TypeSpec))
    (hf : (fields.map Prod.fst).Nodup) (k : String)
    (hk : k ∈ optionalKeys fields) : k ∉ requiredKeys fields := by
  intro hc
  obtain ⟨s, hms, hso⟩ := (mem_optionalKeys fields k).mp hk
  obtain ⟨s2, hms2, hso2⟩ := (mem_requiredKeys fields k).mp hc
  have := nodup_keys_entry_unique fields hf k s s2 hms hms2
  subst this
  rw [hso] at hso2
  exact absurd hso2 (by decide)

theorem recordLoop_characterization (fields : List (String × TypeSpec))
    (optKeys : List String) :
    ∀ (obj : List (String × Value)) (req : List String) (errs : List AErr),
      (obj.map Prod.fst).Nodup → req.Nodup →
      (∀ k, k ∈ optKeys → k ∉ req) →
      TypeSpec.recordLoop fields optKeys obj req errs =
        (req.filter (fun k => !((obj.map Prod.fst).contains k)),
         errs ++ obj.filterMap (fun p => loopKeyError fields optKeys req p.1 p.2)) := by
  intro obj
  induction obj with
  | nil =>
    intro req errs _ _ _
    simp [TypeSpec.recordLoop]
  | cons p rest ih =>
    obtain ⟨k, v⟩ := p
    intro req errs ho hreq hdisj
    have hk_not_rest : k ∉ rest.map Prod.fst :=
      (List.nodup_cons.mp (by simpa using ho)).1
    have ho2 : (rest.map Prod.fst).Nodup :=
      (List.nodup_cons.mp (by simpa using ho)).2
    have hmap : ((k, v) :: rest).map Prod.fst = k :: rest.map Prod.fst := rfl
    by_cases hopt : k ∈ optKeys
    · -- optional declared key: no membership bookkeeping, just the assertion
      have hknotreq : k ∉ req := hdisj k hopt
      have hfilter : req.filter (fun x => !((k :: rest.map Prod.fst).contains x)) =
          req.filter (fun x => !((rest.map Prod.fst).contains x)) := by
        apply List.filter_congr
        intro x hx
        have hxk : x ≠ k := fun heq => hknotreq (heq ▸ hx)
        rw [contains_cons_of_ne _ _ _ hxk]
      cases hassert : TypeSpec.assertLookup fields k v with
      | ok u =>
        have hstep : TypeSpec.recordLoop fields optKeys ((k, v) :: rest) req errs =
            TypeSpec.recordLoop fields optKeys rest req errs := by
          simp [TypeSpec.recordLoop, hopt, hassert]
        have hkey : loopKeyError fields optKeys req k v = none := by
          simp [loopKeyError, hopt, hassert]
        rw [hstep, ih req errs ho2 hreq hdisj, hmap, hfilter, List.filterMap_cons]
        simp [hkey]
      | error e =>
        have hstep : TypeSpec.recordLoop fields optKeys ((k, v) :: rest) req errs =
            TypeSpec.recordLoop fields optKeys rest req
              (errs ++ [AErr.mk ("has invalid \"" ++ k ++ "\" field") [e]]) := by
          simp [TypeSpec.recordLoop, hopt, hassert]
        have hkey : loopKeyError fields optKeys req k v =
            some (AErr.mk ("has invalid \"" ++ k ++ "\" field") [e]) := by
          simp [loopKeyError, hopt, hassert]
        rw [hstep, ih _ _ ho2 hreq hdisj, hmap, hfilter, List.filterMap_cons]
        simp [hkey, List.append_assoc]
    · by_cases hreqk : k ∈ req
      · -- required declared key: delete it from the pending set, then assert
        have herase : req.erase k = req.filter (fun x => x != k) :=
          hreq.erase_eq_filter k
        have hreq2 : (req.erase k).Nodup := hreq.erase k
        have hdisj2 : ∀ x, x ∈ optKeys → x ∉ req.erase k := by
          intro x hx hxr
          exact hdisj x hx (List.mem_of_mem_erase hxr)
        have hfilter : req.filter (fun x => !((k :: rest.map Prod.fst).contains x)) =
            (req.erase k).filter (fun x => !((rest.map Prod.fst).contains x)) := by
          rw [herase, List.filter_filter]
          apply List.filter_congr
          intro x hx
          by_cases hxk : x = k
          · subst hxk
            simp
          · rw [contains_cons_of_ne _ _ _ hxk]
            simp [hxk]
        have hcongr : ∀ q ∈ rest,
            loopKeyError fields optKeys (req.erase k) q.1 q.2 =
              loopKeyError fields optKeys req q.1 q.2 := by
          intro q hq
          have hqk : q.1 ≠ k := by
            rintro hq1
            exact hk_not_rest (hq1 ▸ List.mem_map.mpr ⟨q, hq, rfl⟩)
          simp only [loopKeyError, contains_erase_of_ne req q.1 k hqk]
        cases hassert : TypeSpec.assertLookup fields k v with
        | ok u =>
          have hstep : TypeSpec.recordLoop fields optKeys ((k, v) :: rest) req errs =
              TypeSpec.recordLoop fields optKeys rest (req.erase k) errs := by
            simp [TypeSpec.recordLoop, hopt, hreqk, hassert]
          have hkey : loopKeyError fields optKeys req k v = none := by
            simp [loopKeyError, hopt, hreqk, hassert]
          rw [hstep, ih _ _ ho2 hreq2 hdisj2, hmap, hfilter, List.filterMap_cons]
          rw [filterMap_congr_mem rest _ _ hcongr]
          simp [hkey]
        | error e =>
          have hstep : TypeSpec.recordLoop fields optKeys ((k, v) :: rest) req errs =
              TypeSpec.recordLoop fields optKeys rest (req.erase k)
                (errs ++ [AErr.mk ("has invalid \"" ++ k ++ "\" field") [e]]) := by
            simp [TypeSpec.recordLoop, hopt, hreqk, hassert]
          have hkey : loopKeyError fields optKeys req k v =
              some (AErr.mk ("has invalid \"" ++ k ++ "\" field") [e]) := by
            simp [loopKeyError, hopt, hreqk, hassert]
          rw [hstep, ih _ _ ho2 hreq2 hdisj2, hmap, hfilter, List.filterMap_cons]
          rw [filterMap_congr_mem rest _ _ hcongr]
          simp [hkey, List.append_assoc]
      · -- undeclared key
        have hfilter : req.filter (fun x => !((k :: rest.map Prod.fst).contains x)) =
            req.filter (fun x => !((rest.map Prod.fst).contains x)) := by
          apply List.filter_congr
          intro x hx
          have hxk : x ≠ k := fun heq => hreqk (heq ▸ hx)
          rw [contains_cons_of_ne _ _ _ hxk]
        have hstep : TypeSpec.recordLoop fields optKeys ((k, v) :: rest) req errs =
            TypeSpec.recordLoop fields optKeys rest req
              (errs ++ [AErr.mk ("has invalid \"" ++ k ++ "\" field")
                [AErr.mk "is not a defined key" []]]) := by
          simp [TypeSpec.recordLoop, hopt, hreqk]
        have hkey : loopKeyError fields optKeys req k v =
            some (AErr.mk ("has invalid \"" ++ k ++ "\" field")
              [AErr.mk "is not a defined key" []]) := by
          simp [loopKeyError, hopt, hreqk]
        rw [hstep, ih _ _ ho2 hreq hdisj, hmap, hfilter, List.filterMap_cons]
        simp [hkey, List.append_assoc]

theorem loopKeyError_eq_presentKeyError (fields : List (String × TypeSpec))
    (hf : (fields.map Prod.fst).Nodup) (k : String) (v : Value) :
    loopKeyError fields (optionalKeys fields) (requiredKeys fields) k v =
      presentKeyError fields k v := by
  by_cases hopt : k ∈ optionalKeys fields
  · have hdecl : k ∈ fields.map Prod.fst :=
      (declared_iff_opt_or_req fields k).mpr (Or.inl hopt)
    simp [loopKeyError, presentKeyError, hopt, hdecl]
  · by_cases hreqk : k ∈ requiredKeys fields
    · have hdecl : k ∈ fields.map Prod.fst :=
        (declared_iff_opt_or_req fields k).mpr (Or.inr hreqk)
      simp [loopKeyError, presentKeyError, hopt, hreqk, hdecl]
    · have hdecl : k ∉ fields.map Prod.fst := by
        intro hc
        rcases (declared_iff_opt_or_req fields k).mp hc with h | h
        · exact hopt h
        · exact hreqk h
      simp [loopKeyError, presentKeyError, hopt, hreqk, hdecl]

theorem recordErrors_characterization (fields : List (String × TypeSpec))
    (obj : List (String × Value)) (hf : (fields.map Prod.fst).Nodup)
    (ho : (obj.map Prod.fst).Nodup) :
    TypeSpec.recordErrors fields obj = recordErrorsClaimForm fields obj := by
  have hloop := recordLoop_characterization fields (optionalKeys fields) obj
    (requiredKeys fields) [] ho (requiredKeys_nodup fields hf)
    (fun k hk => optionalKeys_requiredKeys_disjoint fields hf k hk)
  have hcongr := filterMap_congr_mem obj
    (fun p => loopKeyError fields (optionalKeys fields) (requiredKeys fields) p.1 p.2)
    (fun p => presentKeyError fields p.1 p.2)
    (fun p _ => loopKeyError_eq_presentKeyError fields hf p.1 p.2)
  simp only [TypeSpec.recordErrors, hloop, hcongr, List.nil_append]
  rw [recordErrorsClaimForm]

/-- Claim C8: RecordSpec.assert errors on any value that is not a plain
object; its error list has one entry per present key in object order —
undeclared keys error, declared keys contribute their field assertion
errors — followed by one missing-required entry per absent non-optional
key in declaration order; Optional accepts null and undefined (so optional
fields may be absent or null); and with exactly one error that error is
thrown directly while two or more become one tree error preserving order. -/
theorem recordSpec_assert_characterization (fields : List (String × TypeSpec))
    (obj : List (String × Value)) (v : Value) (s : TypeSpec)
    (hf : (fields.map Prod.fst).Nodup) (ho : (obj.map Prod.fst).Nodup) :
    TypeSpec.recordErrors fields obj = recordErrorsClaimForm fields obj ∧
    TypeSpec.assert (TypeSpec.record fields) (Value.vObj obj) =
      (match recordErrorsClaimForm fields obj with
        | [] => Except.ok ()
        | [e] => Except.error e
        | es => Except.error (AErr.mk "has multiple issues" es)) ∧
    (v.isPlainObject = false →
      ∃ m, TypeSpec.assert (TypeSpec.record fields) v = Except.error (AErr.mk m [])) ∧
    TypeSpec.assert (TypeSpec.optional s) Value.vNull = Except.ok () ∧
    TypeSpec.assert (TypeSpec.optional s) Value.vUndefined = Except.ok () := by
  have hchar := recordErrors_characterization fields obj hf ho
  refine ⟨hchar, ?_, ?_, ?_, ?_⟩
  · simp only [TypeSpec.assert, hchar]
  · intro hnp
    cases v with
    | vObj f => simp [Value.isPlainObject] at hnp
    | vUndefined => exact ⟨"is not an object", by simp [TypeSpec.assert]⟩
    | vNull => exact ⟨"is not an object", by simp [TypeSpec.assert]⟩
    | vBool b => exact ⟨"is not an object", by simp [TypeSpec.assert]⟩
    | vNum q => exact ⟨"is not an object", by simp [TypeSpec.assert]⟩
    | vStr st => exact ⟨"is not an object", by simp [TypeSpec.assert]⟩
    | vBytes bs => exact ⟨"has a complex prototype chain", by simp [TypeSpec.assert]⟩
    | vArr el => exact ⟨"has a complex prototype chain", by simp [TypeSpec.assert]⟩
  · simp [TypeSpec.assert]
  · simp [TypeSpec.assert]

/-- Witness for C8 at a concrete record schema (a: String, b: Number?,
c: Boolean) and object with an undeclared key "x" and an ill-typed "a": the
loop's error list equals the declarative one, and Optional accepts null. -/
theorem recordSpec_assert_characterization_witness :
    (([("a", TypeSpec.string), ("b", TypeSpec.optional TypeSpec.number),
        ("c", TypeSpec.boolean)].map Prod.fst).Nodup) ∧
    TypeSpec.recordErrors
        [("a", TypeSpec.string), ("b", TypeSpec.optional TypeSpec.number),
          ("c", TypeSpec.boolean)]
        [("x", Value.vStr "1"), ("a", Value.vNum 2)] =
      recordErrorsClaimForm
        [("a", TypeSpec.string), ("b", TypeSpec.optional TypeSpec.number),
          ("c", TypeSpec.boolean)]
        [("x", Value.vStr "1"), ("a", Value.vNum 2)] ∧
    TypeSpec.assert (TypeSpec.optional TypeSpec.string) Value.vNull = Except.ok () := by
  refine ⟨by decide, ?_, ?_⟩
  · exact (recordSpec_assert_characterization _ _ Value.vNull TypeSpec.string
      (by decide) (by decide)).1
  · exact (recordSpec_assert_characterization
      [("a", TypeSpec.string), ("b", TypeSpec.optional TypeSpec.number),
        ("c", TypeSpec.boolean)]
      [("x", Value.vStr "1"), ("a", Value.vNum 2)] Value.vNull TypeSpec.string
      (by decide) (by decide)).2.2.2.1

end Sequent
